import Mathlib

/-!
Verification of the chat streaming core of the astroAggregate repository.

The development embeds, as executable Lean definitions:
- the message model and generation options (src/src/app/chat/page.tsx, lines 30 to 46);
- the three provider adapters of generateChatResponse and streamChatResponse
  (src/src/app/chat/page.tsx, lines 37 to 192);
- the POST route with its validation and SSE framing (src/unnamed/part_000);
- the client side stream reassembler of ChatPlayground.handleSubmit
  (src/src/lib/vector-db.ts, lines 108 to 180), including the byte level
  TextDecoder buffering, the split on blank lines, and the JSON payload parsing.

Machine strings are modeled as List Char, machine bytes as Nat below 256.
-/

namespace AstroAgg

/-! ## Message model (src/src/app/chat/page.tsx, lines 30 to 35) -/

/-- Role of a conversation message: the union type of ChatMessage.role. -/
inductive Role where
  | user
  | assistant
  | system
deriving DecidableEq, Repr

/-- Model of the ChatMessage type: a role and a text content. -/
structure ChatMessage where
  role : Role
  content : List Char
deriving DecidableEq, Repr

/-- Model of the options argument of generateChatResponse and streamChatResponse.
The code defaults and forwards temperature without computing on it, so an exact
rational stands in for the JavaScript number. -/
structure ChatOptions where
  model : Option (List Char)
  maxTokens : Option Nat
  temperature : Option ℚ
deriving DecidableEq, Repr

/-! ## UTF-8 byte layer

Models TextEncoder.encode on the server (src/unnamed/part_000, line 32) and the
client TextDecoder used with the stream option (src/src/lib/vector-db.ts,
lines 143 and 150): the decoder keeps the trailing bytes of an incomplete
multi byte sequence pending and resumes with the next chunk. -/

/-- UTF-8 encoding of one character, as the standard 1 to 4 byte sequence. -/
def encChar (c : Char) : List Nat :=
  if c.toNat < 128 then [c.toNat]
  else if c.toNat < 2048 then [192 + c.toNat / 64, 128 + c.toNat % 64]
  else if c.toNat < 65536 then
    [224 + c.toNat / 4096, 128 + c.toNat / 64 % 64, 128 + c.toNat % 64]
  else
    [240 + c.toNat / 262144, 128 + c.toNat / 4096 % 64, 128 + c.toNat / 64 % 64,
     128 + c.toNat % 64]

/-- UTF-8 encoding of a character sequence, modeling TextEncoder.encode. -/
def utf8Encode (s : List Char) : List Nat := (s.map encChar).flatten

/-- Number of bytes of the UTF-8 sequence led by byte b (invalid leads count 1,
so that decoding is total and greedy). -/
def utf8Need (b : Nat) : Nat :=
  if b < 128 then 1
  else if b < 192 then 1
  else if b < 224 then 2
  else if b < 240 then 3
  else 4

/-- Decoding of one complete UTF-8 sequence back to its character. -/
def decodeOne : List Nat → Char
  | [b] => Char.ofNat b
  | [b0, b1] => Char.ofNat ((b0 - 192) * 64 + (b1 - 128))
  | [b0, b1, b2] => Char.ofNat ((b0 - 224) * 4096 + (b1 - 128) * 64 + (b2 - 128))
  | [b0, b1, b2, b3] =>
      Char.ofNat ((b0 - 240) * 262144 + (b1 - 128) * 4096 + (b2 - 128) * 64 + (b3 - 128))
  | _ => 'A'

/-- Greedy streaming UTF-8 decode: returns the decoded characters and the
pending bytes of a trailing incomplete sequence, as TextDecoder with the
stream option does. -/
def decodeCore : List Nat → List Char × List Nat
  | [] => ([], [])
  | b :: rest =>
    if utf8Need b = 1 then
      let p := decodeCore rest
      (decodeOne [b] :: p.1, p.2)
    else if utf8Need b = 2 then
      match rest with
      | [] => ([], [b])
      | b1 :: rest1 =>
        let p := decodeCore rest1
        (decodeOne [b, b1] :: p.1, p.2)
    else if utf8Need b = 3 then
      match rest with
      | [] => ([], [b])
      | b1 :: rest1 =>
        match rest1 with
        | [] => ([], [b, b1])
        | b2 :: rest2 =>
          let p := decodeCore rest2
          (decodeOne [b, b1, b2] :: p.1, p.2)
    else
      match rest with
      | [] => ([], [b])
      | b1 :: rest1 =>
        match rest1 with
        | [] => ([], [b, b1])
        | b2 :: rest2 =>
          match rest2 with
          | [] => ([], [b, b1, b2])
          | b3 :: rest3 =>
            let p := decodeCore rest3
            (decodeOne [b, b1, b2, b3] :: p.1, p.2)

/-! ## Blank line frame splitting

Models lines 152 and 153 of src/src/lib/vector-db.ts:
  const lines = buffer.split("\n\n"); buffer = lines.pop() || "";
splitFrames returns the complete segments (all elements of the split except
the last) and the new buffer (the popped last element). -/

/-- Split on the two character separator of two newlines, greedy and non
overlapping as String.prototype.split is; the trailing incomplete segment is
returned separately as the new buffer. -/
def splitFrames : List Char → List (List Char) × List Char
  | [] => ([], [])
  | [c] => ([], [c])
  | c :: d :: rest =>
    if c = '\n' ∧ d = '\n' then
      (([] : List Char) :: (splitFrames rest).1, (splitFrames rest).2)
    else
      match splitFrames (d :: rest) with
      | ([], buf) => ([], c :: buf)
      | (s :: ss, buf) => ((c :: s) :: ss, buf)

/-! ## JSON subset

Models JSON.stringify of the object with a single content field
(src/unnamed/part_000, line 37) and JSON.parse as applied by the reassembler
(src/src/lib/vector-db.ts, line 161). The parser covers the JSON documents the
framing protocol produces: the empty object and one member objects with string
key and string value; every other document is a parse failure, which the
reassembler treats as a skipped frame. -/

/-- Lowercase hexadecimal digit for a value below 16. -/
def hexDigit (n : Nat) : Char :=
  if n < 10 then Char.ofNat (48 + n) else Char.ofNat (87 + n)

/-- Numeric value of a hexadecimal digit character. -/
def fromHexDigit (c : Char) : Option Nat :=
  if 48 ≤ c.toNat ∧ c.toNat ≤ 57 then some (c.toNat - 48)
  else if 97 ≤ c.toNat ∧ c.toNat ≤ 102 then some (c.toNat - 87)
  else if 65 ≤ c.toNat ∧ c.toNat ≤ 70 then some (c.toNat - 55)
  else none

/-- JSON string escaping of one character, exactly as JSON.stringify escapes:
quote and backslash, the short control escapes, a u00XX escape for the other
control characters, and everything else verbatim. -/
def escChar (c : Char) : List Char :=
  if c = '"' then ['\\', '"']
  else if c = '\\' then ['\\', '\\']
  else if c = '\x08' then ['\\', 'b']
  else if c = '\x0c' then ['\\', 'f']
  else if c = '\n' then ['\\', 'n']
  else if c = '\r' then ['\\', 'r']
  else if c = '\t' then ['\\', 't']
  else if c.toNat < 32 then
    ['\\', 'u', '0', '0', hexDigit (c.toNat / 16), hexDigit (c.toNat % 16)]
  else [c]

/-- JSON string escaping of a character sequence. -/
def escapeString (s : List Char) : List Char := (s.map escChar).flatten

/-- The serialized document JSON.stringify produces for the object with one
content field holding f, byte for byte. -/
def stringifyContent (f : List Char) : List Char :=
  "\x7b\"content\":\"".data ++ escapeString f ++ "\"\x7d".data

/-- Resolution of a short backslash escape in a JSON string literal. -/
def shortEscape (c : Char) : Option Char :=
  if c = '"' then some '"'
  else if c = '\\' then some '\\'
  else if c = '/' then some '/'
  else if c = 'b' then some '\x08'
  else if c = 'f' then some '\x0c'
  else if c = 'n' then some '\n'
  else if c = 'r' then some '\r'
  else if c = 't' then some '\t'
  else none

/-- Parse of a JSON string literal body after its opening quote: returns the
decoded characters and the input remaining after the closing quote. -/
def parseStringBody : List Char → Option (List Char × List Char)
  | [] => none
  | c :: rest =>
    if c = '"' then some ([], rest)
    else if c = '\\' then
      match rest with
      | [] => none
      | e :: rest2 =>
        if e = 'u' then
          match rest2 with
          | h1 :: h2 :: h3 :: h4 :: rest3 =>
            match fromHexDigit h1, fromHexDigit h2, fromHexDigit h3, fromHexDigit h4 with
            | some d1, some d2, some d3, some d4 =>
              (parseStringBody rest3).map
                (fun p => (Char.ofNat (d1 * 4096 + d2 * 256 + d3 * 16 + d4) :: p.1, p.2))
            | _, _, _, _ => none
          | _ => none
        else
          match shortEscape e with
          | some d => (parseStringBody rest2).map (fun p => (d :: p.1, p.2))
          | none => none
    else if c.toNat < 32 then none
    else (parseStringBody rest).map (fun p => (c :: p.1, p.2))

/-- Parse of a JSON document, restricted to the documents of the framing
protocol: the empty object or an object with one string member, consuming the
whole input. The result is the member list of the object. -/
def parseJson (l : List Char) : Option (List (List Char × List Char)) :=
  match l with
  | [] => none
  | c :: rest =>
    if c = '\x7b' then
      if rest = ['\x7d'] then some []
      else
        match rest with
        | [] => none
        | q :: r1 =>
          if q = '"' then
            match parseStringBody r1 with
            | some (key, d1 :: d2 :: r2) =>
              if d1 = ':' ∧ d2 = '"' then
                match parseStringBody r2 with
                | some (v, tail) => if tail = ['\x7d'] then some [(key, v)] else none
                | none => none
              else none
            | _ => none
          else none
    else none

/-- Value of the content property of a parsed object, when present. -/
def contentValue (o : List (List Char × List Char)) : Option (List Char) :=
  (o.find? (fun p => p.1 == "content".data)).map (fun p => p.2)

/-- Text that the append on line 165 of src/src/lib/vector-db.ts adds to the
open message: the content property, or the text undefined when the property is
absent, as the JavaScript string conversion of undefined produces. -/
def appendedText (o : List (List Char × List Char)) : List Char :=
  (contentValue o).getD "undefined".data

/-! ## Stream Framer (src/unnamed/part_000, lines 33 to 45)

The route emits, for every chunk the generator yields, the bytes of
  data: JSON.stringify(object with content) plus a blank line,
and after the loop one terminal frame data: [DONE] plus a blank line. -/

/-- Bytes of one framed event for a fragment, before UTF-8 encoding. -/
def frameEvent (f : List Char) : List Char :=
  "data: ".data ++ stringifyContent f ++ ['\n', '\n']

/-- The terminal sentinel frame. -/
def sentinelFrame : List Char := "data: [DONE]\n\n".data

/-- The whole framed character stream the POST route emits for a fragment
sequence: one frame per fragment, unconditionally, then the sentinel. -/
def frameStream (fs : List (List Char)) : List Char :=
  (fs.map frameEvent).flatten ++ sentinelFrame

/-- The segment of one frame as the reassembler sees it after splitting on
blank lines: the frame without its trailing blank line. -/
def frameSeg (f : List Char) : List Char := "data: ".data ++ stringifyContent f

/-- The segment of the sentinel frame. -/
def doneSeg : List Char := "data: [DONE]".data

/-! ## Stream Reassembler (src/src/lib/vector-db.ts, lines 143 to 179) -/

/-- Processing of the complete segments of one chunk, lines 155 to 171 of
src/src/lib/vector-db.ts: a segment without the data prefix is skipped; the
DONE payload stops the loop over this chunk (the break); otherwise the payload
is parsed and its content property is appended to the open message, a parse
failure being logged and skipped. -/
def procSegs (content : List Char) : List (List Char) → List Char
  | [] => content
  | seg :: rest =>
    if "data: ".data.isPrefixOf seg then
      if seg.drop 6 = "[DONE]".data then content
      else
        match parseJson (seg.drop 6) with
        | some o => procSegs (content ++ appendedText o) rest
        | none => procSegs content rest
    else procSegs content rest

/-- One chunk of decoded characters: append to the line buffer, split on blank
lines, keep the popped last piece as the new buffer, process the complete
segments. -/
def procChunkChars (st : List Char × List Char) (chunk : List Char) : List Char × List Char :=
  let p := splitFrames (st.2 ++ chunk)
  (procSegs st.1 p.1, p.2)

/-- Reassembler state: the content of the open assistant message, the line
buffer, and the pending bytes of the streaming UTF-8 decoder. -/
structure RState where
  content : List Char
  buffer : List Char
  pending : List Nat
deriving DecidableEq, Repr

/-- One iteration of the read loop for one byte chunk, lines 146 to 173. -/
def procChunkBytes (st : RState) (bytes : List Nat) : RState :=
  let d := decodeCore (st.pending ++ bytes)
  let p := procChunkChars (st.content, st.buffer) d.1
  ⟨p.1, p.2, d.2⟩

/-- State at the creation of the empty assistant message, line 140. -/
def initialRState : RState := ⟨[], [], []⟩

/-- The read loop over a whole delivered chunk sequence. -/
def runChunks (chunks : List (List Nat)) : RState :=
  chunks.foldl procChunkBytes initialRState

/-- Observable outcome of handleSubmit once the stream ends: the final
reassembler state together with whether the catch branch ran (lines 174 to
176), which happens exactly when the transport stream errored instead of
ending cleanly. -/
structure Outcome where
  content : List Char
  buffer : List Char
  pending : List Nat
  errored : Bool
deriving DecidableEq, Repr

/-- Outcome of handleSubmit for a delivered chunk sequence and an end event:
the chunks are folded through the read loop; an erroring transport makes
reader.read reject afterwards, so the catch branch runs and the error toast is
shown, while the accumulated messages state is left as it is. -/
def handleOutcome (chunks : List (List Nat)) (endsInError : Bool) : Outcome :=
  let st := runChunks chunks
  ⟨st.content, st.buffer, st.pending, endsInError⟩

/-- The state after delivering a byte prefix p as a single chunk. -/
def oneShot (p : List Nat) : RState := procChunkBytes initialRState p

/-! ## Provider adapters and unified generator (src/src/app/chat/page.tsx)

The request builders are embedded twice, once for generateChatResponse and
once for streamChatResponse, mirroring the duplicated code of the two
functions. The upstream behavior is an oracle: blocking responses and stream
events are inputs, and the adapter logic that shapes requests and filters
events is the embedded code. -/

/-- Request of the openai branches (lines 48 to 56 and 120 to 128): model, the
messages unchanged, the defaulted token limit and temperature. The stream flag
only selects the API mode and is represented by which operation runs. -/
structure OpenAIRequest where
  model : List Char
  messages : List ChatMessage
  maxTokens : Nat
  temperature : ℚ
deriving DecidableEq, Repr

/-- Request of the anthropic branches (lines 59 to 72 and 137 to 150): the
first system role message becomes the out of band system field, the other
messages are forwarded in order; no temperature is forwarded. -/
structure AnthropicRequest where
  model : List Char
  maxTokens : Nat
  system : Option (List Char)
  messages : List ChatMessage
deriving DecidableEq, Repr

/-- One history turn of the google branches: a google role string and the text
part. -/
structure GoogleTurn where
  grole : List Char
  text : List Char
deriving DecidableEq, Repr

/-- Request of the google branches (lines 78 to 102 and 163 to 188): history is
every message but the last, user mapped to user and every other role to model;
the prompt is the content of the last message, whatever its role. -/
structure GoogleRequest where
  model : List Char
  history : List GoogleTurn
  prompt : List Char
  maxOutputTokens : Nat
  temperature : ℚ
deriving DecidableEq, Repr

def openaiRequestGen (ms : List ChatMessage) (o : ChatOptions) : OpenAIRequest :=
  ⟨o.model.getD "gpt-3.5-turbo".data, ms, o.maxTokens.getD 1024, o.temperature.getD (7 / 10)⟩

def openaiRequestStream (ms : List ChatMessage) (o : ChatOptions) : OpenAIRequest :=
  ⟨o.model.getD "gpt-3.5-turbo".data, ms, o.maxTokens.getD 1024, o.temperature.getD (7 / 10)⟩

def anthropicRequestGen (ms : List ChatMessage) (o : ChatOptions) : AnthropicRequest :=
  ⟨o.model.getD "claude-3-sonnet-20240229".data,
   o.maxTokens.getD 1024,
   (ms.find? (fun m => decide (m.role = Role.system))).map (fun m => m.content),
   ms.filter (fun m => decide (m.role ≠ Role.system))⟩

def anthropicRequestStream (ms : List ChatMessage) (o : ChatOptions) : AnthropicRequest :=
  ⟨o.model.getD "claude-3-sonnet-20240229".data,
   o.maxTokens.getD 1024,
   (ms.find? (fun m => decide (m.role = Role.system))).map (fun m => m.content),
   ms.filter (fun m => decide (m.role ≠ Role.system))⟩

/-- Mapping of one history message to the google turn shape, line 85 to 88:
role user stays user, every other role becomes model. -/
def googleTurnOf (m : ChatMessage) : GoogleTurn :=
  ⟨if m.role = Role.user then "user".data else "model".data, m.content⟩

/-- Google request of generateChatResponse. On an empty message list the code
reads the content property of an undefined last message and throws a
TypeError before any upstream call; the error branch models that throw. -/
def googleRequestGen (ms : List ChatMessage) (o : ChatOptions) :
    Except (List Char) GoogleRequest :=
  if ms = [] then .error "TypeError: cannot read content of undefined".data
  else .ok ⟨o.model.getD "gemini-flash-latest".data,
    ms.dropLast.map googleTurnOf,
    (ms.getD (ms.length - 1) ⟨Role.user, []⟩).content,
    o.maxTokens.getD 1024,
    o.temperature.getD (7 / 10)⟩

/-- Google request of streamChatResponse, identical shaping. -/
def googleRequestStream (ms : List ChatMessage) (o : ChatOptions) :
    Except (List Char) GoogleRequest :=
  if ms = [] then .error "TypeError: cannot read content of undefined".data
  else .ok ⟨o.model.getD "gemini-flash-latest".data,
    ms.dropLast.map googleTurnOf,
    (ms.getD (ms.length - 1) ⟨Role.user, []⟩).content,
    o.maxTokens.getD 1024,
    o.temperature.getD (7 / 10)⟩

/-- The upstream request issued by the selected adapter. -/
inductive ProviderRequest where
  | openaiR (r : OpenAIRequest)
  | anthropicR (r : AnthropicRequest)
  | googleR (r : GoogleRequest)
deriving DecidableEq, Repr

/-- Dispatch of streamChatResponse (lines 120, 137, 163, 191): the provider
selector chooses the adapter; any other selector throws the Unsupported AI
provider error, with no upstream request. The result is the upstream request
the adapter issues, or the error the generator body throws on its first pull
before any upstream call. -/
def dispatchStream (ms : List ChatMessage) (provider : List Char) (o : ChatOptions) :
    Except (List Char) ProviderRequest :=
  if provider = "openai".data then .ok (.openaiR (openaiRequestStream ms o))
  else if provider = "anthropic".data then .ok (.anthropicR (anthropicRequestStream ms o))
  else if provider = "google".data then (googleRequestStream ms o).map ProviderRequest.googleR
  else .error ("Unsupported AI provider: ".data ++ provider)

/-- Dispatch of generateChatResponse (lines 48, 59, 78, 105), same selection
order and the same error for an unknown selector. -/
def dispatchGen (ms : List ChatMessage) (provider : List Char) (o : ChatOptions) :
    Except (List Char) ProviderRequest :=
  if provider = "openai".data then .ok (.openaiR (openaiRequestGen ms o))
  else if provider = "anthropic".data then .ok (.anthropicR (anthropicRequestGen ms o))
  else if provider = "google".data then (googleRequestGen ms o).map ProviderRequest.googleR
  else .error ("Unsupported AI provider: ".data ++ provider)

/-- The openai streaming loop, lines 130 to 133: each chunk carries an optional
delta content, yielded only when truthy, so absent and empty deltas are
skipped. -/
def openaiStreamTexts (events : List (Option (List Char))) : List (List Char) :=
  events.filterMap (fun e =>
    match e with
    | some t => if t = [] then none else some t
    | none => none)

/-- The openai blocking result, line 56: the first choice content, or the empty
text when it is absent or falsy. -/
def openaiBlockingText (content : Option (List Char)) : List Char := content.getD []

/-- One event of an anthropic message stream, reduced to what the loop on
lines 152 to 159 distinguishes: a text delta of a content block, or anything
else, which is ignored. -/
inductive AnthropicEvent where
  | textDelta (t : List Char)
  | otherEvent
deriving DecidableEq, Repr

/-- The anthropic streaming loop, lines 152 to 159: every text delta is
yielded unconditionally, all other events are ignored. -/
def anthropicStreamTexts (events : List AnthropicEvent) : List (List Char) :=
  events.filterMap (fun e =>
    match e with
    | .textDelta t => some t
    | .otherEvent => none)

/-- One content block of an anthropic blocking response. -/
inductive ContentBlock where
  | textBlock (t : List Char)
  | otherBlock
deriving DecidableEq, Repr

def isTextBlock : ContentBlock → Bool
  | .textBlock _ => true
  | .otherBlock => false

/-- The anthropic blocking result, lines 74 to 75: the text of the first text
block, or the empty text when there is none. -/
def anthropicBlockingText (blocks : List ContentBlock) : List Char :=
  match blocks.find? isTextBlock with
  | some (.textBlock t) => t
  | _ => []

/-- The google streaming loop, lines 184 to 187: each chunk text is yielded
only when truthy, so empty chunk texts are skipped. -/
def googleStreamTexts (chunks : List (List Char)) : List (List Char) :=
  chunks.filterMap (fun t => if t = [] then none else some t)

/-! ## The POST route (src/unnamed/part_000) -/

/-- Shape of the messages field of the request body as the guard on line 24
distinguishes it: falsy, truthy but not an array, or an array of messages. -/
inductive MessagesField where
  | missing
  | notAnArray
  | arr (ms : List ChatMessage)
deriving DecidableEq, Repr

/-- Body of the streaming response: either frames flowing from the dispatched
upstream request, or a stream aborted through controller.error by a throw of
the generator before its first yield. -/
inductive StreamBody where
  | streamingFrom (req : ProviderRequest)
  | abortedBeforeOutput (err : List Char)
deriving DecidableEq, Repr

/-- Response of the POST route. -/
inductive RouteResponse where
  | jsonError (status : Nat) (message : List Char)
  | eventStream (body : StreamBody)
deriving DecidableEq, Repr

/-- The POST route of src/unnamed/part_000: the auth gate (lines 11 to 14),
the guard rejecting a falsy or non array messages field with a 400 json error
(lines 24 to 29), and otherwise a 200 event stream response whose body runs
streamChatResponse with the defaulted provider and the model option
(lines 31 to 53). -/
def postRoute (authed : Bool) (mf : MessagesField) (providerField : Option (List Char))
    (modelField : Option (List Char)) : RouteResponse :=
  if ¬ authed then .jsonError 401 "Unauthorized".data
  else
    match mf with
    | .missing => .jsonError 400 "Messages array is required".data
    | .notAnArray => .jsonError 400 "Messages array is required".data
    | .arr ms =>
      .eventStream
        (match dispatchStream ms (providerField.getD "openai".data) ⟨modelField, none, none⟩ with
         | .ok req => .streamingFrom req
         | .error e => .abortedBeforeOutput e)

/-- Text carried by one anthropic stream event: the delta text, or nothing for
the event kinds the loop ignores. -/
def anthropicEventText : AnthropicEvent → List Char
  | .textDelta t => t
  | .otherEvent => []

/-! ## Theorems -/

theorem utf8Need_pos (b : Nat) : 0 < utf8Need b := by
  unfold utf8Need
  repeat' split
  all_goals omega

theorem utf8Need_cases (b : Nat) :
    utf8Need b = 1 ∨ utf8Need b = 2 ∨ utf8Need b = 3 ∨ utf8Need b = 4 := by
  unfold utf8Need
  repeat' split
  all_goals omega

theorem decodeCore_nil : decodeCore [] = ([], []) := rfl

theorem decodeCore_short (b : Nat) (rest : List Nat)
    (h : (b :: rest).length < utf8Need b) : decodeCore (b :: rest) = ([], b :: rest) := by
  simp only [List.length_cons] at h
  rcases utf8Need_cases b with h1 | h1 | h1 | h1
  · omega
  · match rest with
    | [] =>
      rw [decodeCore.eq_def]
      dsimp only
      rw [if_neg (by omega), if_pos h1]
    | b1 :: rest1 =>
      simp at h
      omega
  · match rest with
    | [] =>
      rw [decodeCore.eq_def]
      dsimp only
      rw [if_neg (by omega), if_neg (by omega), if_pos h1]
    | [b1] =>
      rw [decodeCore.eq_def]
      dsimp only
      rw [if_neg (by omega), if_neg (by omega), if_pos h1]
    | b1 :: b2 :: rest2 =>
      simp at h
      omega
  · match rest with
    | [] =>
      rw [decodeCore.eq_def]
      dsimp only
      rw [if_neg (by omega), if_neg (by omega), if_neg (by omega)]
    | [b1] =>
      rw [decodeCore.eq_def]
      dsimp only
      rw [if_neg (by omega), if_neg (by omega), if_neg (by omega)]
    | [b1, b2] =>
      rw [decodeCore.eq_def]
      dsimp only
      rw [if_neg (by omega), if_neg (by omega), if_neg (by omega)]
    | b1 :: b2 :: b3 :: rest3 =>
      simp at h
      omega

theorem decodeCore_step (b : Nat) (rest : List Nat)
    (h : ¬ (b :: rest).length < utf8Need b) :
    decodeCore (b :: rest) =
      (decodeOne ((b :: rest).take (utf8Need b)) :: (decodeCore ((b :: rest).drop (utf8Need b))).1,
       (decodeCore ((b :: rest).drop (utf8Need b))).2) := by
  simp only [List.length_cons] at h
  rcases utf8Need_cases b with h1 | h1 | h1 | h1
  all_goals rw [h1]
  · rw [decodeCore.eq_def]
    dsimp only
    rw [if_pos h1]
    rfl
  · match rest with
    | [] =>
      rw [h1] at h
      simp at h
    | b1 :: rest1 =>
      rw [decodeCore.eq_def]
      dsimp only
      rw [if_neg (by omega), if_pos h1]
      rfl
  · match rest with
    | [] =>
      rw [h1] at h
      simp at h
    | [b1] =>
      rw [h1] at h
      simp at h
    | b1 :: b2 :: rest2 =>
      rw [decodeCore.eq_def]
      dsimp only
      rw [if_neg (by omega), if_neg (by omega), if_pos h1]
      rfl
  · match rest with
    | [] =>
      rw [h1] at h
      simp at h
    | [b1] =>
      rw [h1] at h
      simp at h
    | [b1, b2] =>
      rw [h1] at h
      simp at h
    | b1 :: b2 :: b3 :: rest3 =>
      rw [decodeCore.eq_def]
      dsimp only
      rw [if_neg (by omega), if_neg (by omega), if_neg (by omega)]
      rfl

/-- Streaming decode is chunk compositional: decoding x then continuing with
the pending bytes in front of y agrees with decoding the concatenation. -/
theorem decodeCore_append (x y : List Nat) :
    decodeCore (x ++ y) =
      ((decodeCore x).1 ++ (decodeCore ((decodeCore x).2 ++ y)).1,
       (decodeCore ((decodeCore x).2 ++ y)).2) := by
  have main : ∀ n (x y : List Nat), x.length = n →
      decodeCore (x ++ y) =
        ((decodeCore x).1 ++ (decodeCore ((decodeCore x).2 ++ y)).1,
         (decodeCore ((decodeCore x).2 ++ y)).2) := by
    intro n
    induction n using Nat.strong_induction_on with
    | _ n ih =>
      intro x y hlen
      match x with
      | [] =>
        simp [decodeCore_nil]
      | b :: rest =>
        by_cases h : (b :: rest).length < utf8Need b
        · rw [decodeCore_short b rest h]
          simp
        · have hle : utf8Need b ≤ (b :: rest).length := Nat.le_of_not_lt h
          have hxy : (b :: rest) ++ y = b :: (rest ++ y) := rfl
          have hylen : ¬ (b :: (rest ++ y)).length < utf8Need b := by
            simp only [List.length_cons, List.length_append] at *
            omega
          rw [hxy, decodeCore_step b (rest ++ y) hylen, decodeCore_step b rest h]
          have htake : (b :: (rest ++ y)).take (utf8Need b) = (b :: rest).take (utf8Need b) := by
            rw [show (b :: (rest ++ y)) = (b :: rest) ++ y from rfl]
            exact List.take_append_of_le_length hle
          have hdrop : (b :: (rest ++ y)).drop (utf8Need b) = (b :: rest).drop (utf8Need b) ++ y := by
            rw [show (b :: (rest ++ y)) = (b :: rest) ++ y from rfl]
            exact List.drop_append_of_le_length hle
          rw [htake, hdrop]
          have hrec := ih (((b :: rest).drop (utf8Need b)).length) (by
              simp only [List.length_drop]
              have := utf8Need_pos b
              simp only [List.length_cons] at *
              omega)
            ((b :: rest).drop (utf8Need b)) y rfl
          rw [hrec]
          simp
  exact main x.length x y rfl

/-- Decoding one encoded character in front of any remaining bytes yields the
character and continues with the rest. -/
theorem decodeCore_encChar (c : Char) (r : List Nat) :
    decodeCore (encChar c ++ r) = (c :: (decodeCore r).1, (decodeCore r).2) := by
  by_cases h1 : c.toNat < 128
  · have he : encChar c = [c.toNat] := by rw [encChar, if_pos h1]
    rw [he]
    have hneed : utf8Need c.toNat = 1 := by rw [utf8Need, if_pos h1]
    have hns : ¬ (c.toNat :: r).length < utf8Need c.toNat := by
      simp [hneed]
    rw [List.cons_append, List.nil_append] at *
    rw [decodeCore_step _ _ hns, hneed]
    simp [decodeOne, Char.ofNat_toNat]
  · by_cases h2 : c.toNat < 2048
    · have he : encChar c = [192 + c.toNat / 64, 128 + c.toNat % 64] := by
        rw [encChar, if_neg h1, if_pos h2]
      rw [he]
      have hneed : utf8Need (192 + c.toNat / 64) = 2 := by
        rw [utf8Need, if_neg (by omega), if_neg (by omega), if_pos (by omega)]
      have hns : ¬ ((192 + c.toNat / 64) :: (128 + c.toNat % 64) :: r).length <
          utf8Need (192 + c.toNat / 64) := by
        simp [hneed]
      rw [List.cons_append, List.cons_append, List.nil_append] at *
      rw [decodeCore_step _ _ hns, hneed]
      simp only [decodeOne, List.take, List.drop]
      rw [show (192 + c.toNat / 64 - 192) * 64 + (128 + c.toNat % 64 - 128) = c.toNat from by
        omega, Char.ofNat_toNat]
    · by_cases h3 : c.toNat < 65536
      · have he : encChar c =
            [224 + c.toNat / 4096, 128 + c.toNat / 64 % 64, 128 + c.toNat % 64] := by
          rw [encChar, if_neg h1, if_neg h2, if_pos h3]
        rw [he]
        have hneed : utf8Need (224 + c.toNat / 4096) = 3 := by
          rw [utf8Need, if_neg (by omega), if_neg (by omega), if_neg (by omega),
            if_pos (by omega)]
        have hns : ¬ ((224 + c.toNat / 4096) :: (128 + c.toNat / 64 % 64) ::
            (128 + c.toNat % 64) :: r).length < utf8Need (224 + c.toNat / 4096) := by
          simp [hneed]
        simp only [List.cons_append, List.nil_append] at *
        rw [decodeCore_step _ _ hns, hneed]
        simp only [decodeOne, List.take, List.drop]
        rw [show (224 + c.toNat / 4096 - 224) * 4096 + (128 + c.toNat / 64 % 64 - 128) * 64 +
            (128 + c.toNat % 64 - 128) = c.toNat from by omega, Char.ofNat_toNat]
      · have he : encChar c =
            [240 + c.toNat / 262144, 128 + c.toNat / 4096 % 64, 128 + c.toNat / 64 % 64,
             128 + c.toNat % 64] := by
          rw [encChar, if_neg h1, if_neg h2, if_neg h3]
        rw [he]
        have hneed : utf8Need (240 + c.toNat / 262144) = 4 := by
          rw [utf8Need, if_neg (by omega), if_neg (by omega), if_neg (by omega),
            if_neg (by omega)]
        have hns : ¬ ((240 + c.toNat / 262144) :: (128 + c.toNat / 4096 % 64) ::
            (128 + c.toNat / 64 % 64) :: (128 + c.toNat % 64) :: r).length <
            utf8Need (240 + c.toNat / 262144) := by
          simp [hneed]
        simp only [List.cons_append, List.nil_append] at *
        rw [decodeCore_step _ _ hns, hneed]
        simp only [decodeOne, List.take, List.drop]
        rw [show (240 + c.toNat / 262144 - 240) * 262144 +
            (128 + c.toNat / 4096 % 64 - 128) * 4096 +
            (128 + c.toNat / 64 % 64 - 128) * 64 + (128 + c.toNat % 64 - 128) = c.toNat from by
          omega, Char.ofNat_toNat]

theorem utf8Encode_nil : utf8Encode [] = [] := rfl

theorem utf8Encode_cons (c : Char) (s : List Char) :
    utf8Encode (c :: s) = encChar c ++ utf8Encode s := by
  simp [utf8Encode]

theorem utf8Encode_append (a b : List Char) :
    utf8Encode (a ++ b) = utf8Encode a ++ utf8Encode b := by
  simp [utf8Encode]

/-- Decoding a fully encoded character sequence yields exactly that sequence
with no pending bytes. -/
theorem decodeCore_encode (s : List Char) : decodeCore (utf8Encode s) = (s, []) := by
  induction s with
  | nil => simp [utf8Encode_nil, decodeCore_nil]
  | cons c s ih =>
    rw [utf8Encode_cons, decodeCore_encChar, ih]

theorem splitFrames_nil : splitFrames [] = ([], []) := rfl

theorem splitFrames_single (c : Char) : splitFrames [c] = ([], [c]) := rfl

theorem splitFrames_sep (rest : List Char) :
    splitFrames ('\n' :: '\n' :: rest) = ([] :: (splitFrames rest).1, (splitFrames rest).2) := by
  rw [splitFrames]
  simp

theorem splitFrames_cons_none (c d : Char) (rest : List Char)
    (h : ¬ (c = '\n' ∧ d = '\n')) (buf : List Char)
    (hsf : splitFrames (d :: rest) = ([], buf)) :
    splitFrames (c :: d :: rest) = ([], c :: buf) := by
  rw [splitFrames, if_neg h, hsf]

theorem splitFrames_cons_some (c d : Char) (rest : List Char)
    (h : ¬ (c = '\n' ∧ d = '\n')) (s : List Char) (ss : List (List Char)) (buf : List Char)
    (hsf : splitFrames (d :: rest) = (s :: ss, buf)) :
    splitFrames (c :: d :: rest) = ((c :: s) :: ss, buf) := by
  rw [splitFrames, if_neg h, hsf]

/-- A split with no complete segment leaves the whole input as buffer. -/
theorem splitFrames_no_seg (l : List Char) (h : (splitFrames l).1 = []) :
    splitFrames l = ([], l) := by
  have main : ∀ n (l : List Char), l.length = n → (splitFrames l).1 = [] →
      splitFrames l = ([], l) := by
    intro n
    induction n using Nat.strong_induction_on with
    | _ n ih =>
      intro l hlen h
      match l with
      | [] => rfl
      | [c] => rfl
      | c :: d :: rest =>
        by_cases hcd : c = '\n' ∧ d = '\n'
        · obtain ⟨hc, hd⟩ := hcd
          subst hc hd
          rw [splitFrames_sep] at h
          simp at h
        · rcases hsf : splitFrames (d :: rest) with ⟨segs, buf⟩
          match segs, hsf with
          | [], hsf =>
            have hrec := ih (d :: rest).length (by subst hlen; simp only [List.length_cons]; omega)
              (d :: rest) rfl (by rw [hsf])
            rw [hsf] at hrec
            simp only [Prod.mk.injEq] at hrec
            obtain ⟨-, hbuf⟩ := hrec
            subst hbuf
            exact splitFrames_cons_none c d rest hcd _ hsf
          | s :: ss, hsf =>
            rw [splitFrames_cons_some c d rest hcd s ss buf hsf] at h
            simp at h
  exact main l.length l rfl h

/-- Frame splitting is chunk compositional: splitting x and then splitting the
left over buffer in front of y agrees with splitting the concatenation. -/
theorem splitFrames_append (x y : List Char) :
    splitFrames (x ++ y) =
      ((splitFrames x).1 ++ (splitFrames ((splitFrames x).2 ++ y)).1,
       (splitFrames ((splitFrames x).2 ++ y)).2) := by
  have main : ∀ n (x y : List Char), x.length = n →
      splitFrames (x ++ y) =
        ((splitFrames x).1 ++ (splitFrames ((splitFrames x).2 ++ y)).1,
         (splitFrames ((splitFrames x).2 ++ y)).2) := by
    intro n
    induction n using Nat.strong_induction_on with
    | _ n ih =>
      intro x y hlen
      match x with
      | [] => simp [splitFrames_nil]
      | [c] => simp [splitFrames_single]
      | c :: d :: rest =>
        by_cases hcd : c = '\n' ∧ d = '\n'
        · obtain ⟨hc, hd⟩ := hcd
          subst hc hd
          have hx : ('\n' :: '\n' :: rest) ++ y = '\n' :: '\n' :: (rest ++ y) := rfl
          rw [hx, splitFrames_sep, splitFrames_sep]
          have hrec := ih rest.length (by subst hlen; simp only [List.length_cons]; omega) rest y rfl
          rw [hrec]
          simp
        · rcases hsf : splitFrames (d :: rest) with ⟨segs, buf⟩
          have hrec := ih (d :: rest).length (by subst hlen; simp only [List.length_cons]; omega) (d :: rest) y rfl
          rw [hsf] at hrec
          match segs, hsf with
          | [], hsf =>
            have hbuf : buf = d :: rest := by
              have h0 := splitFrames_no_seg (d :: rest) (by rw [hsf])
              have h1 := hsf.symm.trans h0
              simp only [Prod.mk.injEq] at h1
              exact h1.2
            subst hbuf
            rw [splitFrames_cons_none c d rest hcd _ hsf]
            simp
          | s :: ss, hsf =>
            rw [splitFrames_cons_some c d rest hcd s ss buf hsf]
            have hd2 : splitFrames (d :: (rest ++ y)) =
                (s :: (ss ++ (splitFrames (buf ++ y)).1), (splitFrames (buf ++ y)).2) := by
              rw [show d :: (rest ++ y) = (d :: rest) ++ y from rfl, hrec]
              simp
            have hx : (c :: d :: rest) ++ y = c :: d :: (rest ++ y) := rfl
            rw [hx, splitFrames_cons_some c d (rest ++ y) hcd _ _ _ hd2]
            simp
  exact main x.length x y rfl

/-- Splitting a newline free segment followed by the separator peels off that
segment. -/
theorem splitFrames_seg (seg : List Char) (h : '\n' ∉ seg) (rest : List Char) :
    splitFrames (seg ++ '\n' :: '\n' :: rest) =
      (seg :: (splitFrames rest).1, (splitFrames rest).2) := by
  induction seg with
  | nil => simpa using splitFrames_sep rest
  | cons a seg ih =>
    have ha : a ≠ '\n' := by
      intro hh
      exact h (by simp [hh])
    have hseg : '\n' ∉ seg := by
      intro hh
      exact h (by simp [hh])
    have hIH := ih hseg
    rcases hX : seg ++ '\n' :: '\n' :: rest with _ | ⟨d, rest2⟩
    · simp at hX
    · rw [show (a :: seg) ++ '\n' :: '\n' :: rest = a :: (seg ++ '\n' :: '\n' :: rest) from rfl,
        hX]
      rw [hX] at hIH
      exact splitFrames_cons_some a d rest2 (by rintro ⟨h1, h2⟩; exact ha h1) seg _ _ hIH

theorem parseStringBody_quote (rest : List Char) :
    parseStringBody ('"' :: rest) = some ([], rest) := by
  rw [parseStringBody.eq_def]
  dsimp only
  rw [if_pos rfl]

theorem parseStringBody_plain (c : Char) (rest : List Char)
    (h1 : c ≠ '"') (h2 : c ≠ '\\') (h3 : ¬ c.toNat < 32) :
    parseStringBody (c :: rest) = (parseStringBody rest).map (fun p => (c :: p.1, p.2)) := by
  rw [parseStringBody.eq_def]
  dsimp only
  rw [if_neg h1, if_neg h2, if_neg h3]

theorem parseStringBody_short (e : Char) (d : Char) (rest : List Char)
    (hu : e ≠ 'u') (hd : shortEscape e = some d) :
    parseStringBody ('\\' :: e :: rest) =
      (parseStringBody rest).map (fun p => (d :: p.1, p.2)) := by
  rw [parseStringBody.eq_def]
  dsimp only
  rw [if_neg (by decide), if_pos rfl, if_neg hu, hd]

theorem parseStringBody_hex (h1 h2 h3 h4 : Char) (d1 d2 d3 d4 : Nat) (rest : List Char)
    (e1 : fromHexDigit h1 = some d1) (e2 : fromHexDigit h2 = some d2)
    (e3 : fromHexDigit h3 = some d3) (e4 : fromHexDigit h4 = some d4) :
    parseStringBody ('\\' :: 'u' :: h1 :: h2 :: h3 :: h4 :: rest) =
      (parseStringBody rest).map
        (fun p => (Char.ofNat (d1 * 4096 + d2 * 256 + d3 * 16 + d4) :: p.1, p.2)) := by
  rw [parseStringBody.eq_def]
  dsimp only
  rw [if_neg (by decide), if_pos rfl, if_pos rfl, e1, e2, e3, e4]

theorem fromHexDigit_hexDigit (m : Nat) (h : m < 16) :
    fromHexDigit (hexDigit m) = some m := by
  interval_cases m <;> decide

/-- Parsing an escaped string body followed by the closing quote recovers the
original characters: the JSON string round trip. -/
theorem parseStringBody_escape (s r : List Char) :
    parseStringBody (escapeString s ++ '"' :: r) = some (s, r) := by
  induction s with
  | nil =>
    simpa [escapeString] using parseStringBody_quote r
  | cons c s ih =>
    have hesc : escapeString (c :: s) ++ '"' :: r =
        escChar c ++ (escapeString s ++ '"' :: r) := by
      simp [escapeString]
    rw [hesc]
    rw [escChar]
    split_ifs with h1 h2 h3 h4 h5 h6 h7 h8
    · subst h1
      rw [show (['\\', '"'] : List Char) ++ (escapeString s ++ '"' :: r) =
          '\\' :: '"' :: (escapeString s ++ '"' :: r) from rfl]
      rw [parseStringBody_short '"' '"' _ (by decide) (by decide), ih]
      rfl
    · subst h2
      rw [show (['\\', '\\'] : List Char) ++ (escapeString s ++ '"' :: r) =
          '\\' :: '\\' :: (escapeString s ++ '"' :: r) from rfl]
      rw [parseStringBody_short '\\' '\\' _ (by decide) (by decide), ih]
      rfl
    · subst h3
      rw [show (['\\', 'b'] : List Char) ++ (escapeString s ++ '"' :: r) =
          '\\' :: 'b' :: (escapeString s ++ '"' :: r) from rfl]
      rw [parseStringBody_short 'b' '\x08' _ (by decide) (by decide), ih]
      rfl
    · subst h4
      rw [show (['\\', 'f'] : List Char) ++ (escapeString s ++ '"' :: r) =
          '\\' :: 'f' :: (escapeString s ++ '"' :: r) from rfl]
      rw [parseStringBody_short 'f' '\x0c' _ (by decide) (by decide), ih]
      rfl
    · subst h5
      rw [show (['\\', 'n'] : List Char) ++ (escapeString s ++ '"' :: r) =
          '\\' :: 'n' :: (escapeString s ++ '"' :: r) from rfl]
      rw [parseStringBody_short 'n' '\n' _ (by decide) (by decide), ih]
      rfl
    · subst h6
      rw [show (['\\', 'r'] : List Char) ++ (escapeString s ++ '"' :: r) =
          '\\' :: 'r' :: (escapeString s ++ '"' :: r) from rfl]
      rw [parseStringBody_short 'r' '\r' _ (by decide) (by decide), ih]
      rfl
    · subst h7
      rw [show (['\\', 't'] : List Char) ++ (escapeString s ++ '"' :: r) =
          '\\' :: 't' :: (escapeString s ++ '"' :: r) from rfl]
      rw [parseStringBody_short 't' '\t' _ (by decide) (by decide), ih]
      rfl
    · rw [show (['\\', 'u', '0', '0', hexDigit (c.toNat / 16), hexDigit (c.toNat % 16)] :
          List Char) ++ (escapeString s ++ '"' :: r) =
          '\\' :: 'u' :: '0' :: '0' :: hexDigit (c.toNat / 16) :: hexDigit (c.toNat % 16) ::
          (escapeString s ++ '"' :: r) from rfl]
      rw [parseStringBody_hex _ _ _ _ 0 0 (c.toNat / 16) (c.toNat % 16) _ (by decide) (by decide)
        (fromHexDigit_hexDigit _ (by omega)) (fromHexDigit_hexDigit _ (by omega)), ih]
      have hv : (0 : Nat) * 4096 + 0 * 256 + c.toNat / 16 * 16 + c.toNat % 16 = c.toNat := by
        omega
      rw [hv, Char.ofNat_toNat]
      rfl
    · rw [show ([c] : List Char) ++ (escapeString s ++ '"' :: r) =
          c :: (escapeString s ++ '"' :: r) from rfl]
      rw [parseStringBody_plain c _ h1 h2 h8, ih]
      rfl

/-- Parsing the stringified content object recovers the single content member
with the original fragment as value. -/
theorem parseJson_stringify (f : List Char) :
    parseJson (stringifyContent f) = some [("content".data, f)] := by
  have hc : escapeString "content".data = "content".data := by decide
  have hs : stringifyContent f =
      '\x7b' :: '"' :: (escapeString "content".data ++
        '"' :: (':' :: '"' :: (escapeString f ++ '"' :: ['\x7d']))) := by
    rw [hc]
    simp [stringifyContent]
  rw [hs, parseJson.eq_def]
  dsimp only
  rw [if_pos rfl]
  rw [if_neg (by
    intro hcontra
    have hlen := congrArg List.length hcontra
    simp [hc] at hlen)]
  rw [if_pos rfl]
  have hkey := parseStringBody_escape "content".data
    (':' :: '"' :: (escapeString f ++ '"' :: ['\x7d']))
  rw [hkey]
  dsimp only
  rw [if_pos ⟨rfl, rfl⟩]
  have hval := parseStringBody_escape f ['\x7d']
  rw [hval]
  dsimp only
  rw [if_pos rfl]

theorem parseJson_empty : parseJson "\x7b\x7d".data = some [] := by decide

theorem contentValue_single (f : List Char) :
    contentValue [("content".data, f)] = some f := by
  simp [contentValue]

/-- The stringified content object contains no newline: every newline of the
fragment is escaped. -/
theorem newline_not_mem_escChar (c : Char) : '\n' ∉ escChar c := by
  rw [escChar]
  split_ifs with h1 h2 h3 h4 h5 h6 h7 h8
  · decide
  · decide
  · decide
  · decide
  · decide
  · decide
  · decide
  · have hhi : hexDigit (c.toNat / 16) ≠ '\n' := by
      have hb : c.toNat / 16 < 16 := by omega
      generalize hm : c.toNat / 16 = m at *
      interval_cases m <;> decide
    have hlo : hexDigit (c.toNat % 16) ≠ '\n' := by
      have hb : c.toNat % 16 < 16 := by omega
      generalize hm : c.toNat % 16 = m at *
      interval_cases m <;> decide
    intro hmem
    simp only [List.mem_cons, List.not_mem_nil, or_false] at hmem
    rcases hmem with h | h | h | h | h | h
    · exact absurd h (by decide)
    · exact absurd h (by decide)
    · exact absurd h (by decide)
    · exact absurd h (by decide)
    · exact hhi h.symm
    · exact hlo h.symm
  · intro hmem
    simp at hmem
    subst hmem
    exact h8 (by decide)

theorem newline_not_mem_stringify (f : List Char) : '\n' ∉ stringifyContent f := by
  intro hmem
  rw [stringifyContent] at hmem
  simp only [List.mem_append] at hmem
  rcases hmem with (h | h) | h
  · revert h
    decide
  · rw [escapeString] at h
    simp only [List.mem_flatten] at h
    obtain ⟨l, hl, hmem⟩ := h
    simp only [List.mem_map] at hl
    obtain ⟨c, -, hcl⟩ := hl
    exact newline_not_mem_escChar c (hcl ▸ hmem)
  · revert h
    decide

theorem procSegs_nil (content : List Char) : procSegs content [] = content := rfl

theorem procSegs_cons_skip (content seg : List Char) (rest : List (List Char))
    (h : ¬ "data: ".data.isPrefixOf seg) :
    procSegs content (seg :: rest) = procSegs content rest := by
  rw [procSegs, if_neg h]

theorem procSegs_cons_done (content seg : List Char) (rest : List (List Char))
    (hpre : "data: ".data.isPrefixOf seg) (hd : seg.drop 6 = "[DONE]".data) :
    procSegs content (seg :: rest) = content := by
  rw [procSegs, if_pos hpre, if_pos hd]

theorem procSegs_cons_parse (content seg : List Char) (rest : List (List Char))
    (hpre : "data: ".data.isPrefixOf seg) (hnd : seg.drop 6 ≠ "[DONE]".data)
    (o : List (List Char × List Char)) (hp : parseJson (seg.drop 6) = some o) :
    procSegs content (seg :: rest) = procSegs (content ++ appendedText o) rest := by
  rw [procSegs, if_pos hpre, if_neg hnd, hp]

theorem procSegs_cons_fail (content seg : List Char) (rest : List (List Char))
    (hpre : "data: ".data.isPrefixOf seg) (hnd : seg.drop 6 ≠ "[DONE]".data)
    (hp : parseJson (seg.drop 6) = none) :
    procSegs content (seg :: rest) = procSegs content rest := by
  rw [procSegs, if_pos hpre, if_neg hnd, hp]

theorem frameSeg_drop (f : List Char) : (frameSeg f).drop 6 = stringifyContent f := by
  rw [frameSeg, show (6 : Nat) = ("data: ".data).length from rfl, List.drop_left]

theorem frameSeg_isPre (f : List Char) : "data: ".data.isPrefixOf (frameSeg f) := by
  rw [List.isPrefixOf_iff_prefix, frameSeg]
  exact ⟨stringifyContent f, rfl⟩

theorem stringify_head (f : List Char) : (stringifyContent f).head? = some '\x7b' := rfl

theorem stringify_ne_done (f : List Char) : stringifyContent f ≠ "[DONE]".data := by
  intro h
  have := congrArg List.head? h
  rw [stringify_head] at this
  simp at this

theorem frameSeg_not_done (f : List Char) : (frameSeg f).drop 6 ≠ "[DONE]".data := by
  rw [frameSeg_drop]
  exact stringify_ne_done f

theorem doneSeg_isPre : "data: ".data.isPrefixOf doneSeg := by decide

theorem doneSeg_drop : doneSeg.drop 6 = "[DONE]".data := by decide

/-- Processing the segments of a full frame sequence appends the concatenation
of the fragments and stops at the sentinel segment. -/
theorem procSegs_frames (content : List Char) (fs : List (List Char)) :
    procSegs content (fs.map frameSeg ++ [doneSeg]) = content ++ fs.flatten := by
  induction fs generalizing content with
  | nil =>
    rw [List.map_nil, List.nil_append]
    rw [procSegs_cons_done content doneSeg [] doneSeg_isPre doneSeg_drop]
    simp
  | cons f fs ih =>
    rw [List.map_cons, List.cons_append]
    rw [procSegs_cons_parse content (frameSeg f) _ (frameSeg_isPre f) (frameSeg_not_done f)
      [("content".data, f)] (by rw [frameSeg_drop]; exact parseJson_stringify f)]
    rw [show appendedText [("content".data, f)] = f from by
      rw [appendedText, contentValue_single]; rfl]
    rw [ih]
    simp

/-- Processing a segment list free of the sentinel payload is compositional. -/
theorem procSegs_append (content : List Char) (a b : List (List Char))
    (h : ∀ seg ∈ a, ¬ ("data: ".data.isPrefixOf seg ∧ seg.drop 6 = "[DONE]".data)) :
    procSegs content (a ++ b) = procSegs (procSegs content a) b := by
  induction a generalizing content with
  | nil => rw [List.nil_append, procSegs_nil]
  | cons seg a ih =>
    have hseg := h seg (by simp)
    have hrest : ∀ s ∈ a, ¬ ("data: ".data.isPrefixOf s ∧ s.drop 6 = "[DONE]".data) := by
      intro s hs
      exact h s (by simp [hs])
    by_cases hpre : "data: ".data.isPrefixOf seg
    · have hnd : seg.drop 6 ≠ "[DONE]".data := fun hd => hseg ⟨hpre, hd⟩
      rcases hp : parseJson (seg.drop 6) with _ | o
      · rw [List.cons_append, procSegs_cons_fail content seg _ hpre hnd hp,
          procSegs_cons_fail content seg a hpre hnd hp]
        exact ih _ hrest
      · rw [List.cons_append, procSegs_cons_parse content seg _ hpre hnd o hp,
          procSegs_cons_parse content seg a hpre hnd o hp]
        exact ih _ hrest
    · rw [List.cons_append, procSegs_cons_skip content seg _ hpre,
        procSegs_cons_skip content seg a hpre]
      exact ih _ hrest

/-- The character stream of the framer splits into one segment per fragment
followed by the sentinel segment, with an empty left over buffer. -/
theorem splitFrames_frameStream (fs : List (List Char)) :
    splitFrames (frameStream fs) = (fs.map frameSeg ++ [doneSeg], []) := by
  induction fs with
  | nil =>
    have hsent : frameStream [] = doneSeg ++ '\n' :: '\n' :: [] := by decide
    rw [hsent, splitFrames_seg doneSeg (by decide) []]
    simp [splitFrames_nil]
  | cons f fs ih =>
    have hsplit : frameStream (f :: fs) = frameSeg f ++ '\n' :: '\n' :: frameStream fs := by
      rw [frameStream, List.map_cons, List.flatten_cons, frameEvent, frameStream]
      simp [frameSeg]
    rw [hsplit, splitFrames_seg (frameSeg f) (by
      intro hmem
      rw [frameSeg] at hmem
      rcases List.mem_append.mp hmem with h | h
      · revert h
        decide
      · exact newline_not_mem_stringify f h), ih]
    simp

theorem procChunkBytes_spec (st : RState) (bytes : List Nat) (cs : List Char)
    (pend : List Nat) (segs : List (List Char)) (buf : List Char)
    (hd : decodeCore (st.pending ++ bytes) = (cs, pend))
    (hs : splitFrames (st.buffer ++ cs) = (segs, buf)) :
    procChunkBytes st bytes = ⟨procSegs st.content segs, buf, pend⟩ := by
  rw [procChunkBytes, procChunkChars, hd]
  dsimp only
  rw [hs]

theorem oneShot_spec (p : List Nat) (cs : List Char) (pend : List Nat)
    (segs : List (List Char)) (buf : List Char)
    (hd : decodeCore p = (cs, pend)) (hs : splitFrames cs = (segs, buf)) :
    oneShot p = ⟨procSegs [] segs, buf, pend⟩ := by
  rw [oneShot]
  exact procChunkBytes_spec initialRState p cs pend segs buf
    (by rw [show initialRState.pending ++ p = p from rfl, hd])
    (by rw [show initialRState.buffer ++ cs = cs from rfl, hs])

theorem prefix_narrow {α : Type} (l A B : List α) (h : l <+: A ++ B)
    (hlen : l.length ≤ A.length) : l <+: A := by
  have hl : l = (A ++ B).take l.length := List.prefix_iff_eq_take.mp h
  rw [List.take_append_of_le_length hlen] at hl
  rw [hl]
  exact List.take_prefix _ _

/-- Central step lemma: on any chunk boundary inside the framed byte stream,
processing the next chunk from the state of the processed prefix gives the
state of the longer prefix. -/
theorem procChunkBytes_oneShot (fs : List (List Char)) (p c r : List Nat)
    (hpcr : p ++ (c ++ r) = utf8Encode (frameStream fs)) :
    procChunkBytes (oneShot p) c = oneShot (p ++ c) := by
  rcases hdp : decodeCore p with ⟨csP, pendP⟩
  rcases hdY : decodeCore (pendP ++ c) with ⟨csY, pendY⟩
  rcases hdZ : decodeCore (pendY ++ r) with ⟨csZ, pendZ⟩
  rcases hsP : splitFrames csP with ⟨segsP, bufP⟩
  rcases hsC : splitFrames (bufP ++ csY) with ⟨segsC, bufC⟩
  rcases hsZ : splitFrames (bufC ++ csZ) with ⟨segsZ, bufZ⟩
  have hdec2 : decodeCore (pendP ++ (c ++ r)) = (csY ++ csZ, pendZ) := by
    rw [show pendP ++ (c ++ r) = (pendP ++ c) ++ r from (List.append_assoc _ _ _).symm]
    rw [decodeCore_append (pendP ++ c) r, hdY]
    dsimp only
    rw [hdZ]
  have hdecAll : decodeCore (p ++ (c ++ r)) = (csP ++ (csY ++ csZ), pendZ) := by
    rw [decodeCore_append p (c ++ r), hdp]
    dsimp only
    rw [hdec2]
  have hFfull : (frameStream fs, ([] : List Nat)) = (csP ++ (csY ++ csZ), pendZ) := by
    rw [← decodeCore_encode (frameStream fs), ← hpcr, hdecAll]
  have hF : frameStream fs = csP ++ (csY ++ csZ) := by
    injection hFfull
  have hsPC : splitFrames (csP ++ csY) = (segsP ++ segsC, bufC) := by
    rw [splitFrames_append csP csY, hsP]
    dsimp only
    rw [hsC]
  have hsAll : splitFrames (csP ++ (csY ++ csZ)) = ((segsP ++ segsC) ++ segsZ, bufZ) := by
    rw [show csP ++ (csY ++ csZ) = (csP ++ csY) ++ csZ from (List.append_assoc _ _ _).symm]
    rw [splitFrames_append (csP ++ csY) csZ, hsPC]
    dsimp only
    rw [hsZ]
  have hallSegs : fs.map frameSeg ++ [doneSeg] = (segsP ++ segsC) ++ segsZ := by
    have h0 := splitFrames_frameStream fs
    rw [hF, hsAll] at h0
    injection h0.symm
  have hdPC : decodeCore (p ++ c) = (csP ++ csY, pendY) := by
    rw [decodeCore_append p c, hdp]
    dsimp only
    rw [hdY]
  have hLHS : procChunkBytes (oneShot p) c =
      ⟨procSegs (procSegs [] segsP) segsC, bufC, pendY⟩ := by
    rw [oneShot_spec p csP pendP segsP bufP hdp hsP]
    exact procChunkBytes_spec _ c csY pendY segsC bufC hdY hsC
  have hRHS : oneShot (p ++ c) = ⟨procSegs [] (segsP ++ segsC), bufC, pendY⟩ :=
    oneShot_spec (p ++ c) (csP ++ csY) pendY (segsP ++ segsC) bufC hdPC hsPC
  rw [hLHS, hRHS]
  have hpre : segsP <+: fs.map frameSeg ++ [doneSeg] := by
    refine ⟨segsC ++ segsZ, ?_⟩
    rw [hallSegs, List.append_assoc]
  have hcontent : procSegs [] (segsP ++ segsC) = procSegs (procSegs [] segsP) segsC := by
    by_cases hlen : segsP.length ≤ (fs.map frameSeg).length
    · have hnarrow : segsP <+: fs.map frameSeg :=
        prefix_narrow segsP (fs.map frameSeg) [doneSeg] hpre hlen
      refine procSegs_append [] segsP segsC ?_
      intro seg hmem
      have hmem2 : seg ∈ fs.map frameSeg := hnarrow.subset hmem
      obtain ⟨f, -, rfl⟩ := List.mem_map.mp hmem2
      rintro ⟨-, hdone⟩
      exact frameSeg_not_done f hdone
    · have hlenle := hpre.length_le
      have hlena : segsP.length = (fs.map frameSeg ++ [doneSeg]).length := by
        simp only [List.length_append, List.length_singleton] at hlenle ⊢
        omega
      have heq : segsP = fs.map frameSeg ++ [doneSeg] := hpre.eq_of_length hlena
      have hnil : segsC ++ segsZ = [] := by
        have h1 : segsP ++ (segsC ++ segsZ) = segsP ++ [] := by
          rw [List.append_nil, ← List.append_assoc, ← hallSegs, heq]
        exact List.append_cancel_left h1
      have hC : segsC = [] := (List.append_eq_nil.mp hnil).1
      rw [hC, List.append_nil, procSegs_nil]
  rw [hcontent]

theorem oneShot_nil : oneShot [] = initialRState := by
  rw [oneShot_spec [] [] [] [] [] decodeCore_nil splitFrames_nil, procSegs_nil]
  rfl

theorem utf8Encode_flatten (l : List (List Char)) :
    utf8Encode l.flatten = (l.map utf8Encode).flatten := by
  induction l with
  | nil => rfl
  | cons a l ih => rw [List.flatten_cons, utf8Encode_append, ih, List.map_cons, List.flatten_cons]

/-- Folding the read loop over chunks inside the framed stream advances the
one shot state chunk by chunk. -/
theorem runChunks_oneShot (fs : List (List Char)) (chunks : List (List Nat)) (p r : List Nat)
    (h : p ++ (chunks.flatten ++ r) = utf8Encode (frameStream fs)) :
    chunks.foldl procChunkBytes (oneShot p) = oneShot (p ++ chunks.flatten) := by
  induction chunks generalizing p with
  | nil => simp
  | cons c cs ih =>
    rw [List.foldl_cons]
    have hstep := procChunkBytes_oneShot fs p c (cs.flatten ++ r) (by
      rw [← h, List.flatten_cons]
      simp [List.append_assoc])
    rw [hstep]
    have hrest := ih (p ++ c) (by
      rw [← h, List.flatten_cons]
      simp [List.append_assoc])
    rw [hrest, List.flatten_cons, List.append_assoc]

/-- The one shot state of the whole framed stream: content is the fragment
concatenation, buffer and pending bytes are empty. -/
theorem oneShot_frameStream (fs : List (List Char)) :
    oneShot (utf8Encode (frameStream fs)) = ⟨fs.flatten, [], []⟩ := by
  rw [oneShot_spec _ _ _ _ _ (decodeCore_encode (frameStream fs)) (splitFrames_frameStream fs)]
  rw [procSegs_frames]
  rfl

/-- Any chunking of the framed byte stream reassembles to the one shot state. -/
theorem runChunks_split (fs : List (List Char)) (chunks : List (List Nat))
    (h : chunks.flatten = utf8Encode (frameStream fs)) :
    runChunks chunks = ⟨fs.flatten, [], []⟩ := by
  rw [runChunks, ← oneShot_nil]
  have hrun := runChunks_oneShot fs chunks [] [] (by simp [h])
  rw [hrun, List.nil_append, h, oneShot_frameStream]

theorem handleOutcome_errored (chunks : List (List Nat)) (e : Bool) :
    (handleOutcome chunks e).errored = e := rfl

theorem openaiStreamTexts_flatten (events : List (Option (List Char))) :
    (openaiStreamTexts events).flatten = (events.map (fun e => e.getD [])).flatten := by
  induction events with
  | nil => rfl
  | cons e es ih =>
    rcases e with _ | t
    · simpa [openaiStreamTexts] using ih
    · by_cases ht : t = []
      · subst ht
        simpa [openaiStreamTexts] using ih
      · have h1 : openaiStreamTexts (some t :: es) = t :: openaiStreamTexts es := by
          simp only [openaiStreamTexts, List.filterMap_cons]
          rw [if_neg ht]
        rw [h1]
        simp only [List.flatten_cons, List.map_cons, Option.getD_some]
        rw [ih]

theorem anthropicStreamTexts_flatten (events : List AnthropicEvent) :
    (anthropicStreamTexts events).flatten = (events.map anthropicEventText).flatten := by
  induction events with
  | nil => rfl
  | cons e es ih =>
    rcases e with t | _
    · simp only [anthropicStreamTexts, List.filterMap_cons, List.map_cons, List.flatten_cons,
        anthropicEventText] at *
      rw [ih]
    · simpa [anthropicStreamTexts, anthropicEventText] using ih

theorem googleStreamTexts_flatten (chunks : List (List Char)) :
    (googleStreamTexts chunks).flatten = chunks.flatten := by
  induction chunks with
  | nil => rfl
  | cons t ts ih =>
    by_cases ht : t = []
    · subst ht
      simpa [googleStreamTexts] using ih
    · have h1 : googleStreamTexts (t :: ts) = t :: googleStreamTexts ts := by
        simp only [googleStreamTexts, List.filterMap_cons]
        rw [if_neg ht]
      rw [h1, List.flatten_cons, List.flatten_cons, ih]

/-! ## Claim theorems -/

/-- C1: for every finite sequence of non empty text fragments, framing each
fragment as a data frame carrying the JSON content object followed by the
terminal DONE frame, and feeding the resulting frames to the stream
reassembler, yields an accumulated message whose content is exactly the
concatenation of the fragments, including fragments needing JSON escaping;
the reassembly is complete: the sentinel was consumed, the line buffer and
byte buffer are empty, and no error state was entered. -/
theorem C1_framing_round_trip (fs : List (List Char)) (hne : ∀ f ∈ fs, f ≠ []) :
    handleOutcome
        (fs.map (fun f => utf8Encode (frameEvent f)) ++ [utf8Encode sentinelFrame]) false =
      ⟨fs.flatten, [], [], false⟩ := by
  have hflat :
      (fs.map (fun f => utf8Encode (frameEvent f)) ++ [utf8Encode sentinelFrame]).flatten =
        utf8Encode (frameStream fs) := by
    rw [List.flatten_append, frameStream, utf8Encode_append, utf8Encode_flatten, List.map_map]
    simp [Function.comp_def]
  rw [handleOutcome, runChunks_split fs _ hflat]

/-- Witness for C1 at the fragment list with a quote and a newline needing
JSON escaping. -/
theorem C1_framing_round_trip_witness :
    (∀ f ∈ [("a\"b".data : List Char), "c\nd".data], f ≠ []) ∧
    handleOutcome
        ([("a\"b".data : List Char), "c\nd".data].map (fun f => utf8Encode (frameEvent f)) ++
          [utf8Encode sentinelFrame]) false =
      ⟨"a\"bc\nd".data, [], [], false⟩ :=
  ⟨by decide,
   (C1_framing_round_trip [("a\"b".data : List Char), "c\nd".data] (by decide)).trans
     (by decide)⟩

/-- C2: delivering the framed byte stream to the reassembler split at any byte
boundaries, including boundaries inside a multi byte character or inside the
JSON payload, yields the same final accumulated content as delivering it as
one chunk. -/
theorem C2_chunk_split_invariance (fs : List (List Char)) (chunks : List (List Nat))
    (h : chunks.flatten = utf8Encode (frameStream fs)) :
    (handleOutcome chunks false).content =
      (handleOutcome [utf8Encode (frameStream fs)] false).content := by
  rw [handleOutcome, handleOutcome, runChunks_split fs chunks h]
  rw [show runChunks [utf8Encode (frameStream fs)] = oneShot (utf8Encode (frameStream fs)) from
    rfl]
  rw [oneShot_frameStream]

/-- Witness for C2: the framed stream of one fragment with a two byte
character, split in the middle of that character. -/
theorem C2_chunk_split_invariance_witness :
    ([(utf8Encode (frameStream ["hé".data])).take 20,
      (utf8Encode (frameStream ["hé".data])).drop 20].flatten =
        utf8Encode (frameStream ["hé".data])) ∧
    (handleOutcome [(utf8Encode (frameStream ["hé".data])).take 20,
        (utf8Encode (frameStream ["hé".data])).drop 20] false).content =
      (handleOutcome [utf8Encode (frameStream ["hé".data])] false).content :=
  ⟨by decide, C2_chunk_split_invariance ["hé".data] _ (by decide)⟩

/-- C3 counterexample: a byte stream that ends cleanly without the sentinel
frame produces exactly the same outcome as the same stream followed by the
sentinel: the reassembler keeps no completion state, so end of input without
the sentinel is not distinguishable by the caller from a clean completion,
refuting the claim for a cleanly ended transport. -/
theorem C3_counterexample :
    handleOutcome [utf8Encode (frameEvent "Hello".data)] false =
      handleOutcome [utf8Encode (frameEvent "Hello".data ++ sentinelFrame)] false := by
  decide

/-- C3 amended: only an erroring transport is distinguishable: the outcome of
an erroring stream differs from the outcome of every cleanly ended stream,
because the catch branch runs and the error toast is shown, and a mid stream
failure after the fragments Hel and lo leaves the partial content Hello with
the errored flag set; a clean end of input without the sentinel is
indistinguishable from a clean completion. -/
theorem C3_amended_only_error_distinct :
    (∀ chunks chunks2 : List (List Nat),
      handleOutcome chunks true ≠ handleOutcome chunks2 false) ∧
    handleOutcome [utf8Encode (frameEvent "Hel".data), utf8Encode (frameEvent "lo".data)]
        true = ⟨"Hello".data, [], [], true⟩ := by
  constructor
  · intro a b h
    have he := congrArg Outcome.errored h
    rw [handleOutcome_errored, handleOutcome_errored] at he
    exact absurd he (by decide)
  · decide

/-- C4 counterexample: the empty messages array passes the route guard, since
an empty array is truthy and Array.isArray accepts it: with valid auth and the
openai selector the route answers with a 200 event stream whose body
dispatches an upstream openai request carrying the empty message list, and the
blocking operation likewise dispatches; no InvalidRequestError exists anywhere
in the code. -/
theorem C4_counterexample :
    postRoute true (.arr []) (some "openai".data) none =
      .eventStream (.streamingFrom (.openaiR ⟨"gpt-3.5-turbo".data, [], 1024, 7 / 10⟩)) ∧
    dispatchGen [] "openai".data ⟨none, none, none⟩ =
      .ok (.openaiR ⟨"gpt-3.5-turbo".data, [], 1024, 7 / 10⟩) :=
  ⟨rfl, rfl⟩

/-- C4 amended: the route rejects only a falsy or non array messages field,
with a 400 json error carrying the message Messages array is required and no
provider dispatch; the empty messages array passes the guard and is dispatched
to the selected provider, and the operations themselves perform no
validation. -/
theorem C4_amended_guard :
    (∀ pf mf : Option (List Char),
      postRoute true .missing pf mf = .jsonError 400 "Messages array is required".data ∧
      postRoute true .notAnArray pf mf = .jsonError 400 "Messages array is required".data) ∧
    postRoute true (.arr []) (some "openai".data) none =
      .eventStream (.streamingFrom (.openaiR ⟨"gpt-3.5-turbo".data, [], 1024, 7 / 10⟩)) := by
  refine ⟨fun pf mf => ⟨rfl, rfl⟩, rfl⟩

/-- C5 counterexample: with the unknown selector mistral the route still
answers with a 200 event stream response: the stream is opened and then
aborted through controller.error by the Unsupported AI provider throw, so no
structured json error response is produced, refuting the no stream opened
part of the claim; the upstream is indeed never contacted. -/
theorem C5_counterexample :
    postRoute true (.arr [⟨Role.user, "hi".data⟩]) (some "mistral".data) none =
      .eventStream (.abortedBeforeOutput "Unsupported AI provider: mistral".data) := by
  rfl

/-- C5 amended: an unknown provider selector makes both operations throw the
Unsupported AI provider error with zero upstream requests, but the route has
already returned a 200 event stream response; the opened stream is aborted by
that error instead of a structured error response being sent. -/
theorem C5_amended_unsupported (p : List Char) (h1 : p ≠ "openai".data)
    (h2 : p ≠ "anthropic".data) (h3 : p ≠ "google".data) (ms : List ChatMessage)
    (o : ChatOptions) (mf : Option (List Char)) :
    dispatchStream ms p o = .error ("Unsupported AI provider: ".data ++ p) ∧
    dispatchGen ms p o = .error ("Unsupported AI provider: ".data ++ p) ∧
    postRoute true (.arr ms) (some p) mf =
      .eventStream (.abortedBeforeOutput ("Unsupported AI provider: ".data ++ p)) := by
  have hds : ∀ opt, dispatchStream ms p opt = .error ("Unsupported AI provider: ".data ++ p) := by
    intro opt
    rw [dispatchStream, if_neg h1, if_neg h2, if_neg h3]
  refine ⟨hds o, ?_, ?_⟩
  · rw [dispatchGen, if_neg h1, if_neg h2, if_neg h3]
  · rw [postRoute]
    rw [if_neg (by simp)]
    rw [show (some p).getD "openai".data = p from rfl, hds ⟨mf, none, none⟩]

/-- Witness for C5 amended at the unknown selector cohere. -/
theorem C5_amended_unsupported_witness :
    (("cohere".data : List Char) ≠ "openai".data ∧
     ("cohere".data : List Char) ≠ "anthropic".data ∧
     ("cohere".data : List Char) ≠ "google".data) ∧
    (dispatchStream [⟨Role.user, "q".data⟩] "cohere".data ⟨none, none, none⟩ =
        .error ("Unsupported AI provider: ".data ++ "cohere".data) ∧
      dispatchGen [⟨Role.user, "q".data⟩] "cohere".data ⟨none, none, none⟩ =
        .error ("Unsupported AI provider: ".data ++ "cohere".data) ∧
      postRoute true (.arr [⟨Role.user, "q".data⟩]) (some "cohere".data) none =
        .eventStream (.abortedBeforeOutput ("Unsupported AI provider: ".data ++
          "cohere".data))) :=
  ⟨⟨by decide, by decide, by decide⟩,
   C5_amended_unsupported "cohere".data (by decide) (by decide) (by decide)
     [⟨Role.user, "q".data⟩] ⟨none, none, none⟩ none⟩

/-- C6: under the determinism assumption on the provider, phrased as the
oracle consistency linking one generated text to both the blocking response
and the stream events of each provider, the concatenation of the fragments the
streaming operation yields equals the text the blocking operation returns, for
all three providers; and the two operations build identical upstream requests
from the same inputs. -/
theorem C6_stream_matches_blocking (g : List Char)
    (oaiEvents : List (Option (List Char))) (oaiContent : Option (List Char))
    (aEvents : List AnthropicEvent) (aBlocks : List ContentBlock)
    (gChunks : List (List Char)) (gText : List Char)
    (hoai1 : (oaiEvents.map (fun e => e.getD [])).flatten = g)
    (hoai2 : openaiBlockingText oaiContent = g)
    (ha1 : (aEvents.map anthropicEventText).flatten = g)
    (ha2 : anthropicBlockingText aBlocks = g)
    (hg1 : gChunks.flatten = g) (hg2 : gText = g) :
    (openaiStreamTexts oaiEvents).flatten = openaiBlockingText oaiContent ∧
    (anthropicStreamTexts aEvents).flatten = anthropicBlockingText aBlocks ∧
    (googleStreamTexts gChunks).flatten = gText ∧
    (∀ ms o, openaiRequestStream ms o = openaiRequestGen ms o) ∧
    (∀ ms o, anthropicRequestStream ms o = anthropicRequestGen ms o) ∧
    (∀ ms o, googleRequestStream ms o = googleRequestGen ms o) := by
  refine ⟨?_, ?_, ?_, fun ms o => rfl, fun ms o => rfl, fun ms o => rfl⟩
  · rw [openaiStreamTexts_flatten, hoai1, hoai2]
  · rw [anthropicStreamTexts_flatten, ha1, ha2]
  · rw [googleStreamTexts_flatten, hg1, hg2]

/-- Witness for C6 at the generated text Hello, with an absent and an empty
openai delta, an ignored anthropic event, a leading non text anthropic block,
and an empty google chunk. -/
theorem C6_stream_matches_blocking_witness :
    (([some "He".data, none, some [], some "llo".data].map
        (fun e : Option (List Char) => e.getD [])).flatten = "Hello".data ∧
     openaiBlockingText (some "Hello".data) = "Hello".data ∧
     ([AnthropicEvent.textDelta "He".data, AnthropicEvent.otherEvent,
        AnthropicEvent.textDelta "llo".data].map anthropicEventText).flatten = "Hello".data ∧
     anthropicBlockingText [ContentBlock.otherBlock, ContentBlock.textBlock "Hello".data] =
       "Hello".data ∧
     (["Hel".data, [], "lo".data] : List (List Char)).flatten = "Hello".data) ∧
    ((openaiStreamTexts [some "He".data, none, some [], some "llo".data]).flatten =
        openaiBlockingText (some "Hello".data) ∧
     (anthropicStreamTexts [AnthropicEvent.textDelta "He".data, AnthropicEvent.otherEvent,
        AnthropicEvent.textDelta "llo".data]).flatten =
       anthropicBlockingText [ContentBlock.otherBlock, ContentBlock.textBlock "Hello".data] ∧
     (googleStreamTexts ["Hel".data, [], "lo".data]).flatten = "Hello".data ∧
     (∀ ms o, openaiRequestStream ms o = openaiRequestGen ms o) ∧
     (∀ ms o, anthropicRequestStream ms o = anthropicRequestGen ms o) ∧
     (∀ ms o, googleRequestStream ms o = googleRequestGen ms o)) :=
  ⟨⟨by decide, by decide, by decide, by decide, by decide⟩,
   C6_stream_matches_blocking "Hello".data
     [some "He".data, none, some [], some "llo".data] (some "Hello".data)
     [AnthropicEvent.textDelta "He".data, AnthropicEvent.otherEvent,
      AnthropicEvent.textDelta "llo".data]
     [ContentBlock.otherBlock, ContentBlock.textBlock "Hello".data]
     ["Hel".data, [], "lo".data] "Hello".data
     (by decide) (by decide) (by decide) (by decide) (by decide) (by decide)⟩

/-- C7 counterexample: the framer emits a frame for the empty string fragment:
framing the singleton empty fragment produces a different wire stream from
framing no fragment at all, and the extra frame is the data frame with the
empty content object. -/
theorem C7_counterexample :
    frameStream [[]] ≠ frameStream [] ∧
    (splitFrames (frameStream [[]])).1 =
      ["data: \x7b\"content\":\"\"\x7d".data, doneSeg] := by
  constructor
  · decide
  · decide

/-- C7 amended: the framer of the POST route emits one frame per fragment
unconditionally, empty fragments included, plus the sentinel; the defensive
skipping of empty fragments lives in the adapters: the openai and google
streaming loops never yield an empty fragment (the anthropic loop can). -/
theorem C7_amended_framer_unconditional :
    (∀ fs : List (List Char), (splitFrames (frameStream fs)).1.length = fs.length + 1) ∧
    (∀ events : List (Option (List Char)), [] ∉ openaiStreamTexts events) ∧
    (∀ chunks : List (List Char), [] ∉ googleStreamTexts chunks) := by
  refine ⟨?_, ?_, ?_⟩
  · intro fs
    rw [splitFrames_frameStream]
    simp
  · intro events hmem
    obtain ⟨e, -, he⟩ := List.mem_filterMap.mp hmem
    rcases e with _ | t
    · simp at he
    · by_cases ht : t = []
      · rw [show (match some t with
            | some t => if t = [] then none else some t
            | none => none) = (if t = [] then none else some t) from rfl, if_pos ht] at he
        exact Option.noConfusion he
      · rw [show (match some t with
            | some t => if t = [] then none else some t
            | none => none) = (if t = [] then none else some t) from rfl, if_neg ht] at he
        exact ht (Option.some.inj he)
  · intro chunks hmem
    obtain ⟨t, -, ht⟩ := List.mem_filterMap.mp hmem
    by_cases h0 : t = []
    · rw [if_pos h0] at ht
      exact Option.noConfusion ht
    · rw [if_neg h0] at ht
      exact h0 (Option.some.inj ht)

/-- C8: for the message list of one system message X and one user message Y,
the anthropic adapter passes exactly one out of band system instruction X and
exactly one conversational turn Y, in order, in both the blocking and the
streaming operation. -/
theorem C8_anthropic_system_extraction :
    anthropicRequestGen [⟨Role.system, "X".data⟩, ⟨Role.user, "Y".data⟩] ⟨none, none, none⟩ =
      ⟨"claude-3-sonnet-20240229".data, 1024, some "X".data, [⟨Role.user, "Y".data⟩]⟩ ∧
    anthropicRequestStream [⟨Role.system, "X".data⟩, ⟨Role.user, "Y".data⟩]
        ⟨none, none, none⟩ =
      ⟨"claude-3-sonnet-20240229".data, 1024, some "X".data, [⟨Role.user, "Y".data⟩]⟩ := by
  constructor
  · decide
  · decide

/-- C9: the google adapter extracts no system message, in either operation:
for every non empty message list, every message but the last is forwarded as
history with role user mapped to user and every other role, system included,
mapped to model, and the content of the last message is sent as the prompt
whatever its role; the blocking and streaming builders agree. -/
theorem C9_google_history_shape (ms : List ChatMessage) (hne : ms ≠ []) (o : ChatOptions) :
    googleRequestStream ms o =
      .ok ⟨o.model.getD "gemini-flash-latest".data, ms.dropLast.map googleTurnOf,
        (ms.getLast hne).content, o.maxTokens.getD 1024, o.temperature.getD (7 / 10)⟩ ∧
    googleRequestGen ms o = googleRequestStream ms o ∧
    (∀ m : ChatMessage, m.role = Role.user → (googleTurnOf m).grole = "user".data) ∧
    (∀ m : ChatMessage, m.role ≠ Role.user → (googleTurnOf m).grole = "model".data) := by
  refine ⟨?_, rfl, ?_, ?_⟩
  · rw [googleRequestStream, if_neg hne]
    have hlast : ms.getD (ms.length - 1) ⟨Role.user, []⟩ = ms.getLast hne := by
      rw [List.getLast_eq_getElem, List.getD_eq_getElem]
    rw [hlast]
  · intro m hm
    rw [googleTurnOf]
    dsimp only
    rw [if_pos hm]
  · intro m hm
    rw [googleTurnOf]
    dsimp only
    rw [if_neg hm]

/-- Witness for C9 at a three message list led by a system message. -/
theorem C9_google_history_shape_witness :
    (([⟨Role.system, "s".data⟩, ⟨Role.user, "u".data⟩,
        (⟨Role.assistant, "a".data⟩ : ChatMessage)] : List ChatMessage) ≠ []) ∧
    (googleRequestStream
        [⟨Role.system, "s".data⟩, ⟨Role.user, "u".data⟩, ⟨Role.assistant, "a".data⟩]
        ⟨none, none, none⟩ =
      .ok ⟨"gemini-flash-latest".data,
        [⟨"model".data, "s".data⟩, ⟨"user".data, "u".data⟩], "a".data, 1024, 7 / 10⟩) :=
  ⟨by decide,
   ((C9_google_history_shape
      [⟨Role.system, "s".data⟩, ⟨Role.user, "u".data⟩, ⟨Role.assistant, "a".data⟩]
      (by decide) ⟨none, none, none⟩).1).trans (by rfl)⟩

/-- C10: a complete frame whose payload parses as valid JSON without a content
property makes the reassembler append the text undefined to the open message,
as the JavaScript string conversion of the undefined content binding does,
instead of skipping the frame. -/
theorem C10_missing_content_appends_undefined (content payload : List Char)
    (o : List (List Char × List Char)) (hnl : '\n' ∉ payload)
    (hp : parseJson payload = some o) (hnc : contentValue o = none) :
    procChunkChars (content, []) ("data: ".data ++ payload ++ ['\n', '\n']) =
      (content ++ "undefined".data, []) := by
  rw [procChunkChars]
  dsimp only
  rw [List.nil_append]
  rw [show "data: ".data ++ payload ++ ['\n', '\n'] =
      ("data: ".data ++ payload) ++ '\n' :: '\n' :: [] from by
    rw [List.append_assoc]]
  have hnlseg : '\n' ∉ "data: ".data ++ payload := by
    intro hm
    rcases List.mem_append.mp hm with h | h
    · revert h
      decide
    · exact hnl h
  rw [splitFrames_seg _ hnlseg [], splitFrames_nil]
  dsimp only
  have hpre : "data: ".data.isPrefixOf ("data: ".data ++ payload) := by
    rw [List.isPrefixOf_iff_prefix]
    exact ⟨payload, rfl⟩
  have hdrop : ("data: ".data ++ payload).drop 6 = payload := by
    rw [show (6 : Nat) = ("data: ".data).length from rfl, List.drop_left]
  have hnd : ("data: ".data ++ payload).drop 6 ≠ "[DONE]".data := by
    rw [hdrop]
    intro hcontra
    rw [hcontra, show parseJson "[DONE]".data = none from by decide] at hp
    exact Option.noConfusion hp
  rw [procSegs_cons_parse content _ [] hpre hnd o (by rw [hdrop, hp]), procSegs_nil,
    appendedText, hnc]
  rfl

/-- Witness for C10 at the frame with the empty object payload. -/
theorem C10_missing_content_appends_undefined_witness :
    ('\n' ∉ "\x7b\x7d".data) ∧
    parseJson "\x7b\x7d".data = some [] ∧
    contentValue ([] : List (List Char × List Char)) = none ∧
    procChunkChars ("abc".data, []) ("data: ".data ++ "\x7b\x7d".data ++ ['\n', '\n']) =
      ("abcundefined".data, []) :=
  ⟨by decide, by decide, by decide,
   (C10_missing_content_appends_undefined "abc".data "\x7b\x7d".data [] (by decide) (by decide)
     (by decide)).trans (by decide)⟩
